import Mathlib

/-!
Verification of the yt-downloader job/worker/progress core.

The definitions below are a shallow embedding of the TypeScript/JavaScript
source of the repository:

* `src/lib/downloader/index.ts` — progress parsing, subprocess execution,
  single-video and playlist download orchestration;
* `src/utils/downloadToken.ts` — signed download tokens;
* `src/utils/queue.ts` — queue job options;
* `src/dist/workers/downloadWorker.js` — worker filesystem handling and
  dead-letter routing;
* `src/app/api/jobs/[id]/events/route.ts` — the SSE job-status facade.

JavaScript numbers that hold parsed percentages are modelled as exact
rationals (`ℚ`); `parseFloat` of a `digits(.digits)` capture is the exact
decimal value up to double rounding, which is monotone and does not affect
any property proved here.  Strings are Lean `String`s and character lists.
-/

namespace YtDl

/-! ### JavaScript string primitives -/

/-- JS truthiness of an optional string: `null`/`undefined` and `""` are falsy. -/
def jsTruthyStr : Option String → Bool
  | none => false
  | some s => s ≠ ""

/-- `String.prototype.trim` on a character list (whitespace at both ends). -/
def trimChars (l : List Char) : List Char :=
  ((l.dropWhile Char.isWhitespace).reverse.dropWhile Char.isWhitespace).reverse

/-- `String.prototype.trim`. -/
def jsTrim (s : String) : String := ⟨trimChars s.data⟩

/-- Splits off the maximal leading run of ASCII digits. -/
def takeDigits : List Char → List Char × List Char
  | [] => ([], [])
  | c :: r =>
    if c.isDigit then
      let p := takeDigits r
      (c :: p.1, p.2)
    else ([], c :: r)

/-- Numeric value of a digit string (most significant digit first). -/
def digitsVal (l : List Char) : ℕ :=
  l.foldl (fun a c => 10 * a + (c.toNat - 48)) 0

/-- Does `pat` occur at the very start of `l`? -/
def leadsWith : List Char → List Char → Bool
  | [], _ => true
  | _ :: _, [] => false
  | a :: as, b :: bs => a = b && leadsWith as bs

/-- Does `l` end with `suf`? -/
def trailsWith (suf l : List Char) : Bool :=
  leadsWith suf.reverse l.reverse

/-! ### Progress parser (`src/lib/downloader/index.ts`)

`extractPercentage` embeds `chunk.match(/(\d+(?:\.\d+)?)%/)` followed by
`parseFloat(match[1])`.  The JS regex engine scans for the leftmost start
position with a full match; at a fixed start the greedy quantifiers cannot
backtrack into a successful alternative (the character after a maximal
digit run is never a digit), so matching at a position reduces to:
maximal digit run, optionally a dot and another maximal digit run, then
a literal `%`. -/

/-- Matches `(\d+(?:\.\d+)?)%` anchored at the head of `l` and returns the
value of the numeric capture. -/
def matchPercentAt (l : List Char) : Option ℚ :=
  let p := takeDigits l
  if p.1.isEmpty then none
  else
    match p.2 with
    | '%' :: _ => some (digitsVal p.1 : ℚ)
    | '.' :: r2 =>
      let q := takeDigits r2
      if q.1.isEmpty then none
      else
        match q.2 with
        | '%' :: _ =>
          some ((digitsVal p.1 : ℚ) + (digitsVal q.1 : ℚ) / (10 : ℚ) ^ q.1.length)
        | _ => none
    | _ => none

def extractPercentageAux : List Char → Option ℚ
  | [] => none
  | c :: r =>
    match matchPercentAt (c :: r) with
    | some q => some q
    | none => extractPercentageAux r

/-- `extractPercentage` from `src/lib/downloader/index.ts` (lines 101–104):
first `NN[.NN]%` pattern in the chunk, as a number, else `null`. -/
def extractPercentage (s : String) : Option ℚ :=
  extractPercentageAux s.data

/-- Characters the non-dotall JS `.` does not match. -/
def isJsLineEnd (c : Char) : Bool :=
  c = '\n' || c = '\r' || c = '\u2028' || c = '\u2029'

/-- The part of `l` a greedy `.+` can cover (up to the first line terminator). -/
def takeLine (l : List Char) : List Char :=
  l.takeWhile (fun c => !isJsLineEnd c)

def destMarker : List Char := "Destination:".data

/-- Matches `Destination:\s(.+)` anchored at the head of `l`; returns capture 1. -/
def matchDestinationAt (l : List Char) : Option (List Char) :=
  if leadsWith destMarker l then
    match l.drop destMarker.length with
    | [] => none
    | c :: rest =>
      if c.isWhitespace then
        let cap := takeLine rest
        if cap.isEmpty then none else some cap
      else none
  else none

def scanDestination : List Char → Option (List Char)
  | [] => none
  | c :: r =>
    match matchDestinationAt (c :: r) with
    | some cap => some cap
    | none => scanDestination r

def mergeMarker : List Char := "Merging formats into \"".data

/-- Longest proper prefix of `l` (possibly empty) that is followed by a `'"'`;
`none` when `l` holds no quote.  Implements the greedy `(.+)"` tail. -/
def beforeLastQuote : List Char → Option (List Char)
  | [] => none
  | c :: r =>
    match beforeLastQuote r with
    | some cap => some (c :: cap)
    | none => if c = '"' then some [] else none

/-- Matches `Merging formats into "(.+)"` anchored at the head of `l`. -/
def matchMergeAt (l : List Char) : Option (List Char) :=
  if leadsWith mergeMarker l then
    match beforeLastQuote (takeLine (l.drop mergeMarker.length)) with
    | some cap => if cap.isEmpty then none else some cap
    | none => none
  else none

def scanMerge : List Char → Option (List Char)
  | [] => none
  | c :: r =>
    match matchMergeAt (c :: r) with
    | some cap => some cap
    | none => scanMerge r

/-- `value.replace(/^"|"$/g, "")`: strips one leading and one trailing quote. -/
def stripEdgeQuotes (l : List Char) : List Char :=
  let l1 := match l with
    | '"' :: r => r
    | _ => l
  match l1.getLast? with
  | some '"' => l1.dropLast
  | _ => l1

/-- `extractFilePath` from `src/lib/downloader/index.ts` (lines 111–123):
`Destination:\s(.+)` (trimmed, edge quotes stripped), else
`Merging formats into "(.+)"` (trimmed), else `null`. -/
def extractFilePath (s : String) : Option String :=
  match scanDestination s.data with
  | some cap => some ⟨stripEdgeQuotes (trimChars cap)⟩
  | none =>
    match scanMerge s.data with
    | some cap => some ⟨trimChars cap⟩
    | none => none

/-! ### Subprocess execution unit (`executeDownload`, lines 141–237)

The two `data` handlers installed on the child's stdout and stderr are
embedded as pure state transformers over the closure state
`(filePath, lastPercent)`; the list of `onProgress(percent, message)`
invocations they perform is returned alongside the new state.  A run of
the unit is a fold of these handlers over the chunk arrival sequence. -/

inductive StreamSrc
  | stdout
  | stderr
deriving DecidableEq

structure StreamChunk where
  src : StreamSrc
  text : String
deriving DecidableEq

structure ExecState where
  filePath : Option String
  lastPercent : ℚ
deriving DecidableEq

def initExecState : ExecState := ⟨none, 0⟩

/-- One `onProgress(percent, message)` invocation. -/
abbrev ProgressCall := ℚ × String

/-- `if (maybePath) { filePath = maybePath; }` -/
def applyPath (st : ExecState) (chunk : String) : ExecState :=
  if jsTruthyStr (extractFilePath chunk) then ⟨extractFilePath chunk, st.lastPercent⟩ else st

/-- The `child.stdout.on("data", ...)` handler (lines 176–189). -/
def handleStdoutChunk (st : ExecState) (chunk : String) : ExecState × List ProgressCall :=
  match extractPercentage chunk with
  | some p =>
    if (applyPath st chunk).lastPercent ≤ p then
      (⟨(applyPath st chunk).filePath, p⟩, [(p, jsTrim chunk)])
    else (applyPath st chunk, [])
  | none => (applyPath st chunk, [])

/-- The informational fallback of the stderr handler (lines 208–211). -/
def stderrInfo (st : ExecState) (chunk : String) : ExecState × List ProgressCall :=
  if jsTrim chunk = "" then (st, []) else (st, [(st.lastPercent, jsTrim chunk)])

/-- The `child.stderr.on("data", ...)` handler (lines 193–212). -/
def handleStderrChunk (st : ExecState) (chunk : String) : ExecState × List ProgressCall :=
  match extractPercentage chunk with
  | some p =>
    if (applyPath st chunk).lastPercent ≤ p then
      (⟨(applyPath st chunk).filePath, p⟩, [(p, jsTrim chunk)])
    else stderrInfo (applyPath st chunk) chunk
  | none => stderrInfo (applyPath st chunk) chunk

def execStep (st : ExecState) (c : StreamChunk) : ExecState × List ProgressCall :=
  match c.src with
  | .stdout => handleStdoutChunk st c.text
  | .stderr => handleStderrChunk st c.text

/-- Folds the handlers over the arrival-ordered chunk sequence, collecting
every progress callback invocation in order. -/
def execRun (st : ExecState) : List StreamChunk → ExecState × List ProgressCall
  | [] => (st, [])
  | c :: cs =>
    let s := execStep st c
    let r := execRun s.1 cs
    (r.1, s.2 ++ r.2)

/-- How the awaited child process ended: a `'error'` event, or an `'exit'`
event with an exit code (`null` when killed by a signal). -/
inductive ExitOutcome
  | procError (message : String)
  | exited (code : Option ℤ)
deriving DecidableEq

/-- The message of the rejection produced by the exit waiter (lines 218–224). -/
def exitFailureMessage : ExitOutcome → Option String
  | .procError m => some m
  | .exited (some c) => if c = 0 then none else some ("yt-dlp exited with code " ++ toString c)
  | .exited none => some "yt-dlp exited with code unknown"

/-- A truthy file path parsed from one chunk, if any. -/
def pathOf? (chunk : String) : Option String :=
  match extractFilePath chunk with
  | some p => if p = "" then none else some p
  | none => none

/-- The file paths successfully parsed (and truthy) across the chunk
sequence, in arrival order. -/
def parsedPaths (cs : List StreamChunk) : List String :=
  cs.filterMap (fun c => pathOf? c.text)

/-- Result of `executeDownload` (lines 215–236): the wrapped subprocess
failure, the missing-output-path failure, or the resolved file path. -/
def executeDownloadResult (cs : List StreamChunk) (outcome : ExitOutcome) :
    Except String String :=
  match exitFailureMessage outcome with
  | some m => .error ("yt-dlp failed: " ++ m)
  | none =>
    match (execRun initExecState cs).1.filePath with
    | some p =>
      if p = "" then
        .error "Download completed but the output file path could not be determined."
      else .ok p
    | none => .error "Download completed but the output file path could not be determined."

/-- Full observable behaviour of one `executeDownload` call. -/
def executeDownload (cs : List StreamChunk) (outcome : ExitOutcome) :
    List ProgressCall × Except String String :=
  ((execRun initExecState cs).2, executeDownloadResult cs outcome)

/-! #### Structural lemmas about the percent tracker -/

theorem applyPath_lastPercent (st : ExecState) (chunk : String) :
    (applyPath st chunk).lastPercent = st.lastPercent := by
  unfold applyPath
  split <;> rfl

theorem stderrInfo_spec (st : ExecState) (chunk : String) :
    (stderrInfo st chunk).1 = st ∧
    ∀ q ∈ (stderrInfo st chunk).2, q.1 = st.lastPercent := by
  unfold stderrInfo
  split
  · exact ⟨rfl, by intro q hq; simp at hq⟩
  · refine ⟨rfl, ?_⟩
    intro q hq
    simp at hq
    rw [hq]

theorem execStep_spec (st : ExecState) (c : StreamChunk) :
    st.lastPercent ≤ (execStep st c).1.lastPercent ∧
    ∀ q ∈ (execStep st c).2,
      st.lastPercent ≤ q.1 ∧ q.1 ≤ (execStep st c).1.lastPercent := by
  cases c with
  | mk src text =>
    have hap := applyPath_lastPercent st text
    have hinfo := stderrInfo_spec (applyPath st text) text
    cases src
    case stdout =>
      simp only [execStep, handleStdoutChunk]
      split
      · split
        next hle =>
          refine ⟨hap ▸ hle, ?_⟩
          intro q hq
          simp at hq
          rw [hq]
          exact ⟨hap ▸ hle, le_refl _⟩
        next =>
          exact ⟨le_of_eq hap.symm, by intro q hq; simp at hq⟩
      · exact ⟨le_of_eq hap.symm, by intro q hq; simp at hq⟩
    case stderr =>
      simp only [execStep, handleStderrChunk]
      split
      · split
        next hle =>
          refine ⟨hap ▸ hle, ?_⟩
          intro q hq
          simp at hq
          rw [hq]
          exact ⟨hap ▸ hle, le_refl _⟩
        next =>
          refine ⟨?_, ?_⟩
          · rw [hinfo.1, hap]
          · intro q hq
            have := hinfo.2 q hq
            rw [this, hinfo.1, hap]
            exact ⟨le_refl _, le_refl _⟩
      · refine ⟨?_, ?_⟩
        · rw [hinfo.1, hap]
        · intro q hq
          have := hinfo.2 q hq
          rw [this, hinfo.1, hap]
          exact ⟨le_refl _, le_refl _⟩

theorem execRun_spec (cs : List StreamChunk) : ∀ st : ExecState,
    st.lastPercent ≤ (execRun st cs).1.lastPercent ∧
    ∀ q ∈ (execRun st cs).2,
      st.lastPercent ≤ q.1 ∧ q.1 ≤ (execRun st cs).1.lastPercent := by
  induction cs with
  | nil =>
    intro st
    exact ⟨le_refl _, by intro q hq; simp [execRun] at hq⟩
  | cons c cs ih =>
    intro st
    rcases execStep_spec st c with ⟨hstep, hcalls⟩
    rcases ih (execStep st c).1 with ⟨hrun, hrcalls⟩
    refine ⟨le_trans hstep hrun, ?_⟩
    intro q hq
    simp only [execRun, List.mem_append] at hq
    rcases hq with hq | hq
    · rcases hcalls q hq with ⟨h1, h2⟩
      exact ⟨h1, le_trans h2 hrun⟩
    · rcases hrcalls q hq with ⟨h1, h2⟩
      exact ⟨le_trans hstep h1, h2⟩

theorem execStep_calls_length (st : ExecState) (c : StreamChunk) :
    (execStep st c).2.length ≤ 1 := by
  cases c with
  | mk src text =>
    cases src <;>
      simp only [execStep, handleStdoutChunk, handleStderrChunk, stderrInfo] <;>
      split <;>
      first
        | simp
        | (split <;>
            first
              | simp
              | (split <;> simp))

theorem pairwise_of_length_le_one {α : Type} {r : α → α → Prop} :
    ∀ {l : List α}, l.length ≤ 1 → l.Pairwise r
  | [], _ => List.Pairwise.nil
  | [a], _ => by simp
  | a :: b :: t, h => by simp at h

/-- The percent components of the calls a run performs are sorted
(non-decreasing), whatever the chunk sequence and starting state. -/
theorem execRun_sorted (cs : List StreamChunk) : ∀ st : ExecState,
    ((execRun st cs).2.map Prod.fst).Sorted (· ≤ ·) := by
  induction cs with
  | nil =>
    intro st
    simp [execRun, List.Sorted]
  | cons c cs ih =>
    intro st
    rcases execStep_spec st c with ⟨_, hcalls⟩
    rcases execRun_spec cs (execStep st c).1 with ⟨_, hrcalls⟩
    have hs := ih (execStep st c).1
    simp only [execRun, List.map_append, List.Sorted, List.pairwise_append]
    refine ⟨?_, hs, ?_⟩
    · exact pairwise_of_length_le_one (by
        have := execStep_calls_length st c
        simpa using this)
    · intro a ha b hb
      simp only [List.mem_map] at ha hb
      rcases ha with ⟨qa, hqa, rfl⟩
      rcases hb with ⟨qb, hqb, rfl⟩
      exact le_trans (hcalls qa hqa).2 (hrcalls qb hqb).1

/-! #### The `filePath` slot is last-write-wins over parsed paths -/

theorem applyPath_filePath (st : ExecState) (chunk : String) :
    (applyPath st chunk).filePath =
      match pathOf? chunk with
      | some p => some p
      | none => st.filePath := by
  unfold applyPath pathOf? jsTruthyStr
  cases h : extractFilePath chunk with
  | none => simp [h]
  | some p =>
    by_cases hp : p = ""
    · simp [h, hp]
    · simp [h, hp]

theorem execStep_filePath (st : ExecState) (c : StreamChunk) :
    (execStep st c).1.filePath =
      match pathOf? c.text with
      | some p => some p
      | none => st.filePath := by
  have hstep : (execStep st c).1.filePath = (applyPath st c.text).filePath := by
    cases c with
    | mk src text =>
      cases src <;>
        simp only [execStep, handleStdoutChunk, handleStderrChunk, stderrInfo] <;>
        split <;>
        first
          | rfl
          | (split <;> rfl)
          | (split <;> first | rfl | (split <;> rfl))
  rw [hstep, applyPath_filePath]

/-- `filePath = maybePath` assignments are last-write-wins. -/
def lastWrite (l : List String) (d : Option String) : Option String :=
  l.foldl (fun _ p => some p) d

theorem lastWrite_eq_getLast? (l : List String) : ∀ d : Option String,
    lastWrite l d =
      match l.getLast? with
      | some p => some p
      | none => d := by
  induction l with
  | nil => intro d; rfl
  | cons a l ih =>
    intro d
    have h1 : lastWrite (a :: l) d = lastWrite l (some a) := rfl
    rw [h1, ih (some a)]
    cases l with
    | nil => rfl
    | cons b t =>
      rw [List.getLast?_cons_cons]
      rfl

theorem execRun_filePath (cs : List StreamChunk) : ∀ st : ExecState,
    (execRun st cs).1.filePath = lastWrite (parsedPaths cs) st.filePath := by
  induction cs with
  | nil => intro st; rfl
  | cons c cs ih =>
    intro st
    have h1 : (execRun st (c :: cs)).1 = (execRun (execStep st c).1 cs).1 := rfl
    rw [h1, ih (execStep st c).1]
    have h2 : parsedPaths (c :: cs) =
        match pathOf? c.text with
        | some p => p :: parsedPaths cs
        | none => parsedPaths cs := by
      unfold parsedPaths
      rw [List.filterMap_cons]
      cases pathOf? c.text <;> rfl
    rw [h2, execStep_filePath]
    cases pathOf? c.text <;> rfl

theorem parsedPaths_ne_empty (cs : List StreamChunk) :
    ∀ p ∈ parsedPaths cs, p ≠ "" := by
  intro p hp
  unfold parsedPaths at hp
  rcases List.mem_filterMap.mp hp with ⟨c, _, hc⟩
  unfold pathOf? at hc
  cases h : extractFilePath c.text with
  | none => rw [h] at hc; exact absurd hc (by simp)
  | some q =>
    rw [h] at hc
    by_cases hq : q = ""
    · simp [hq] at hc
    · simp [hq] at hc
      exact hc ▸ hq

/-! ### Claim C1 -/

/-- C1: for every sequence of raw subprocess output chunks (from stdout and
stderr) fed through `executeDownload`'s percentage extraction and tracking,
the sequence of percent values passed to the injected progress callback is
non-decreasing; feeding `"10%"`, `"5%"`, `"42%"` yields callback calls with
percents 10 then 42, never 5. -/
theorem c1_monotonic_progress :
    (∀ (cs : List StreamChunk) (outcome : ExitOutcome),
        ((executeDownload cs outcome).1.map Prod.fst).Sorted (· ≤ ·))
    ∧ (executeDownload
         [⟨.stdout, "10%"⟩, ⟨.stdout, "5%"⟩, ⟨.stdout, "42%"⟩]
         (.exited (some 0))).1.map Prod.fst = [10, 42] := by
  constructor
  · intro cs outcome
    exact execRun_sorted cs initExecState
  · decide

/-! ### Claim C5 -/

/-- C5 counterexample: when the process exits with a non-zero status, the
failure produced by `executeDownload` is the fixed exit-code message; two
runs with entirely different stderr content fail with the *same* error, so
the error cannot carry the external tool's stderr tail. -/
theorem c5_counterexample :
    (executeDownload [⟨.stderr, "ERROR: boom A"⟩] (.exited (some 1))).2
      = Except.error "yt-dlp failed: yt-dlp exited with code 1"
    ∧ (executeDownload [⟨.stderr, "ERROR: a completely different stderr tail"⟩]
         (.exited (some 1))).2
      = Except.error "yt-dlp failed: yt-dlp exited with code 1" := by
  constructor <;> rfl

/-- C5 (amended): (a) a non-zero or abnormal exit fails with a
`SubprocessFailure`-style error naming the exit code (the stderr tail is
not part of the error); (b) a zero exit with no parsed destination fails
with the unresolved-output-path error; (c) the call returns a path exactly
when the process exits zero and the path is the last parsed destination
marker. -/
theorem c5_exec_failure_modes (cs : List StreamChunk) :
    (∀ c : ℤ, c ≠ 0 →
       (executeDownload cs (.exited (some c))).2 =
         .error ("yt-dlp failed: " ++ ("yt-dlp exited with code " ++ toString c)))
    ∧ (executeDownload cs (.exited none)).2 =
        .error "yt-dlp failed: yt-dlp exited with code unknown"
    ∧ (∀ m : String, (executeDownload cs (.procError m)).2 =
        .error ("yt-dlp failed: " ++ m))
    ∧ (parsedPaths cs = [] →
        (executeDownload cs (.exited (some 0))).2 =
          .error "Download completed but the output file path could not be determined.")
    ∧ (∀ p : String, (executeDownload cs (.exited (some 0))).2 = .ok p ↔
        (parsedPaths cs).getLast? = some p) := by
  have hfp : (execRun initExecState cs).1.filePath =
      match (parsedPaths cs).getLast? with
      | some p => some p
      | none => none := by
    rw [execRun_filePath, lastWrite_eq_getLast?]
    cases (parsedPaths cs).getLast? <;> rfl
  refine ⟨?_, rfl, fun m => rfl, ?_, ?_⟩
  · intro c hc
    simp only [executeDownload, executeDownloadResult, exitFailureMessage, if_neg hc]
  · intro h
    simp only [executeDownload, executeDownloadResult]
    have h0 : exitFailureMessage (.exited (some 0)) = none := rfl
    rw [h0, hfp, h]
    rfl
  · intro p
    simp only [executeDownload, executeDownloadResult]
    have h0 : exitFailureMessage (.exited (some 0)) = none := rfl
    rw [h0, hfp]
    cases hl : (parsedPaths cs).getLast? with
    | none => simp
    | some q =>
      have hqmem : q ∈ (parsedPaths cs).getLast? := by rw [Option.mem_def, hl]
      rcases List.mem_getLast?_eq_getLast hqmem with ⟨hne, heq⟩
      have hq : q ∈ parsedPaths cs := heq ▸ List.getLast_mem hne
      have hqe : q ≠ "" := parsedPaths_ne_empty cs q hq
      simp [hqe]

/-- Witness for `c5_exec_failure_modes` at a concrete chunk sequence: a
failing exit yields the exit-code error, and a clean exit returns the last
parsed `Destination:` path. -/
theorem c5_exec_failure_modes_witness :
    (executeDownload ([] : List StreamChunk) (.exited (some 2))).2 =
      .error ("yt-dlp failed: " ++ ("yt-dlp exited with code " ++ toString (2 : ℤ)))
    ∧ (executeDownload
         [⟨.stdout, "Destination: /tmp/a.m4a"⟩, ⟨.stdout, "Destination: /tmp/b.m4a"⟩]
         (.exited (some 0))).2 = .ok "/tmp/b.m4a" := by
  constructor
  · exact (c5_exec_failure_modes []).1 2 (by decide)
  · exact ((c5_exec_failure_modes
      [⟨.stdout, "Destination: /tmp/a.m4a"⟩, ⟨.stdout, "Destination: /tmp/b.m4a"⟩]).2.2.2.2
        "/tmp/b.m4a").mpr (by decide)

/-! ### POSIX path helpers (`node:path`, as used by the downloader)

The downloader only ever joins plain segments and takes
`dirname`/`basename`/`extname` of slash-separated paths without trailing
slashes; the embeddings below implement the Node semantics on that domain
(`path.join` normalisation of `.`/`..`/doubled slashes inside segments is
out of scope because the source never produces such inputs). -/

/-- Characters of a path after the last `'/'`. -/
def basenameChars (l : List Char) : List Char :=
  (l.reverse.takeWhile (fun c => c ≠ '/')).reverse

/-- `path.basename`. -/
def pathBasename (s : String) : String := ⟨basenameChars s.data⟩

/-- `path.dirname` (for inputs without trailing slashes). -/
def pathDirname (s : String) : String :=
  let pre := s.data.reverse.dropWhile (fun c => c ≠ '/')
  if pre.isEmpty then "."
  else if pre = ['/'] then "/"
  else ⟨(pre.drop 1).reverse⟩

/-- Splits `l` around its last `'.'`: `some (before, fromDotInclusive)`. -/
def extSplit : List Char → Option (List Char × List Char)
  | [] => none
  | c :: r =>
    match extSplit r with
    | some p => some (c :: p.1, p.2)
    | none => if c = '.' then some ([], '.' :: r) else none

/-- `path.extname`: the basename's suffix from its last dot, when that dot
is not the leading character. -/
def pathExtname (s : String) : String :=
  match extSplit (basenameChars s.data) with
  | some p => if p.1.isEmpty then "" else ⟨p.2⟩
  | none => ""

/-- `path.basename(p, ext)`: strips `ext` when the basename ends with it
and is not equal to it. -/
def pathBasenameExt (s ext : String) : String :=
  let b := basenameChars s.data
  if ext.data ≠ [] ∧ b ≠ ext.data ∧ trailsWith ext.data b then
    ⟨b.take (b.length - ext.data.length)⟩
  else ⟨b⟩

/-- `path.join(dir, name)` for a `dirname`-shaped `dir` and a plain name. -/
def pathJoin (dir name : String) : String :=
  if dir = "." then name
  else if dir = "/" then "/" ++ name
  else dir ++ "/" ++ name

/-! ### Audio conversion (`convertToMp3`, lines 35–53)

`convertToMp3` computes `directory/basename.mp3` from the input path, runs
the ffmpeg chain into that output, then removes the input file (removal
errors are swallowed).  ffmpeg chain failures reject and propagate to the
caller's catch; only the resolving path is modelled here, which is what
the claims conditioned on success require.  The filesystem is modelled as
the list of existing file paths. -/

/-- The output path computed by `convertToMp3`:
`path.join(dirname, basename-without-ext + ".mp3")`. -/
def convertToMp3Path (inputPath : String) : String :=
  pathJoin (pathDirname inputPath) (pathBasenameExt inputPath (pathExtname inputPath) ++ ".mp3")

/-- `convertToMp3` as a filesystem transformer: ffmpeg writes the output
path, then `fs.remove(inputPath)` deletes the input.  Returns the new
filesystem and the resolved output path. -/
def convertToMp3 (inputPath : String) (fs : List String) : List String × String :=
  let outputPath := convertToMp3Path inputPath
  let fs1 := outputPath :: fs.filter (fun p => p ≠ outputPath)
  (fs1.filter (fun p => p ≠ inputPath), outputPath)

/-! ### Media operation — video (`downloadVideo`, lines 242–289) -/

structure DownloadOptions where
  format : Option String
  quality : Option String
  selectedVideoIds : Option (List String)
deriving DecidableEq

/-- The empty options object `{}`. -/
def noOptions : DownloadOptions := ⟨none, none, none⟩

structure VideoResult where
  filePath : String
  format : String
deriving DecidableEq

/-- `percent || 0`: a falsy (zero) percent maps to 0. -/
def jsOrZeroQ (p : ℚ) : ℚ := if p = 0 then 0 else p

/-- `resolveFormatSelector` (lines 59–79). -/
def resolveFormatSelector (options : DownloadOptions) (targetFormat : String) : String :=
  let quality := match options.quality with
    | some q => if q = "" then "best" else q
    | none => "best"
  if targetFormat = "mp3" then "bestaudio[ext=m4a]/bestaudio/best"
  else if quality = "audio" then "bestaudio[ext=m4a]/bestaudio/best"
  else if quality = "1080p" then
    "bestvideo[height<=1080][ext=mp4]+bestaudio[ext=m4a]/best[height<=1080][ext=mp4]/best[height<=1080]"
  else if quality = "720p" then
    "bestvideo[height<=720][ext=mp4]+bestaudio[ext=m4a]/best[height<=720][ext=mp4]/best[height<=720]"
  else "bestvideo[ext=mp4]+bestaudio[ext=m4a]/best[ext=mp4]/best"

/-- The wrapped progress callback of `downloadVideo` (lines 262–265):
clamps the percent to at most 100, maps falsy percents to 0 and empty
messages to a default. -/
def wrapVideoCall (c : ProgressCall) : ProgressCall :=
  (min 100 (jsOrZeroQ c.1), if c.2 = "" then "Downloading video" else c.2)

deriving instance DecidableEq for Except

/-- Observable behaviour of one `downloadVideo` call: the calls made to the
caller's `onProgress`, the result, and the final filesystem state.  The
subprocess behaviour is injected as its chunk sequence and exit outcome;
on subprocess success the downloaded file exists, and the mp3 conversion
transforms the filesystem as in `convertToMp3`. -/
structure VideoRun where
  calls : List ProgressCall
  result : Except String VideoResult
  fs : List String
deriving DecidableEq

def downloadVideo (videoUrl outputDir : String) (cs : List StreamChunk)
    (outcome : ExitOutcome) (options : DownloadOptions) (fs : List String) : VideoRun :=
  if videoUrl = "" then ⟨[], .error "Video URL is required.", fs⟩
  else if outputDir = "" then ⟨[], .error "An output directory is required.", fs⟩
  else
    let targetFormat := if options.format = some "mp3" then "mp3" else "mp4"
    let execCalls := (executeDownload cs outcome).1
    let wrapped := execCalls.map wrapVideoCall
    match (executeDownload cs outcome).2 with
    | .error msg => ⟨wrapped, .error ("Failed to download video: " ++ msg), fs⟩
    | .ok downloadedPath =>
      let fsDl := downloadedPath :: fs.filter (fun p => p ≠ downloadedPath)
      let conv := if targetFormat = "mp3" then convertToMp3 downloadedPath fsDl
                  else (fsDl, downloadedPath)
      let synthetic := if execCalls.isEmpty then [((100 : ℚ), "Download complete")] else []
      ⟨wrapped ++ synthetic, .ok ⟨conv.2, targetFormat⟩, conv.1⟩

/-! ### Claim C6 -/

/-- C6 counterexample: a successful run whose subprocess reported 50% but
never 100% produces no final 100% callback — the synthetic completion
update only fires when no progress callback happened at all. -/
theorem c6_counterexample :
    (∀ c ∈ (executeDownload
        [⟨.stdout, "50%"⟩, ⟨.stdout, "Destination: /tmp/video.m4a"⟩]
        (.exited (some 0))).1, c.1 ≠ 100)
    ∧ (downloadVideo "https://example.com/v" "/out"
        [⟨.stdout, "50%"⟩, ⟨.stdout, "Destination: /tmp/video.m4a"⟩]
        (.exited (some 0)) noOptions []).result =
        .ok ⟨"/tmp/video.m4a", "mp4"⟩
    ∧ (downloadVideo "https://example.com/v" "/out"
        [⟨.stdout, "50%"⟩, ⟨.stdout, "Destination: /tmp/video.m4a"⟩]
        (.exited (some 0)) noOptions []).calls = [(50, "50%")]
    ∧ (∀ c ∈ (downloadVideo "https://example.com/v" "/out"
        [⟨.stdout, "50%"⟩, ⟨.stdout, "Destination: /tmp/video.m4a"⟩]
        (.exited (some 0)) noOptions []).calls, c.1 ≠ 100) := by
  refine ⟨by decide, by decide, by decide, by decide⟩

/-- C6 (amended): on a successful `downloadVideo` run, the synthetic
`(100, "Download complete")` callback fires exactly when the wrapped
progress callback was never invoked during the subprocess run (i.e. the
subprocess produced no progress output at all); otherwise the caller sees
exactly the subprocess-driven calls with no synthetic completion. -/
theorem c6_synthetic_complete (videoUrl outputDir : String) (cs : List StreamChunk)
    (outcome : ExitOutcome) (options : DownloadOptions) (fs : List String) (dp : String)
    (hu : videoUrl ≠ "") (hd : outputDir ≠ "")
    (hok : (executeDownload cs outcome).2 = .ok dp) :
    ((executeDownload cs outcome).1 = [] →
      (downloadVideo videoUrl outputDir cs outcome options fs).calls =
        [((100 : ℚ), "Download complete")])
    ∧ ((executeDownload cs outcome).1 ≠ [] →
      (downloadVideo videoUrl outputDir cs outcome options fs).calls =
        (executeDownload cs outcome).1.map wrapVideoCall) := by
  constructor
  · intro hnil
    simp only [downloadVideo, if_neg hu, if_neg hd, hok, hnil]
    rfl
  · intro hne
    simp only [downloadVideo, if_neg hu, if_neg hd, hok]
    have : (executeDownload cs outcome).1.isEmpty = false := by
      cases h : (executeDownload cs outcome).1 with
      | nil => exact absurd h hne
      | cons a t => rfl
    simp [this]

/-- Witness for `c6_synthetic_complete`: a run with no progress output at
all yields exactly the synthetic completion call. -/
theorem c6_synthetic_complete_witness :
    (downloadVideo "https://example.com/v" "/out"
      [⟨.stdout, "Destination: /tmp/video.m4a"⟩]
      (.exited (some 0)) noOptions []).calls = [((100 : ℚ), "Download complete")] :=
  (c6_synthetic_complete "https://example.com/v" "/out"
      [⟨.stdout, "Destination: /tmp/video.m4a"⟩]
      (.exited (some 0)) noOptions [] "/tmp/video.m4a"
      (by decide) (by decide) (by decide)).1 (by decide)

/-! ### Claim C7 -/

theorem mp3_suffix_of_pathJoin (dir nm : String) :
    ".mp3".data <:+ (pathJoin dir (nm ++ ".mp3")).data := by
  unfold pathJoin
  split
  · exact ⟨nm.data, (String.data_append nm ".mp3").symm⟩
  · split
    · refine ⟨"/".data ++ nm.data, ?_⟩
      rw [List.append_assoc, ← String.data_append nm ".mp3", ← String.data_append]
    · refine ⟨(dir ++ "/").data ++ nm.data, ?_⟩
      rw [List.append_assoc, ← String.data_append nm ".mp3", ← String.data_append]

/-- C7: a successful `downloadVideo` run with requested format mp3 returns
the converted artifact — the downloaded file's directory and basename with
the extension replaced by `.mp3` — and the pre-conversion intermediate file
is removed from the filesystem, never left as a duplicate artifact. -/
theorem c7_mp3_conversion (videoUrl outputDir : String) (cs : List StreamChunk)
    (outcome : ExitOutcome) (options : DownloadOptions) (fs : List String) (dp : String)
    (hu : videoUrl ≠ "") (hd : outputDir ≠ "")
    (hmp3 : options.format = some "mp3")
    (hok : (executeDownload cs outcome).2 = .ok dp) :
    (downloadVideo videoUrl outputDir cs outcome options fs).result =
      .ok ⟨pathJoin (pathDirname dp) (pathBasenameExt dp (pathExtname dp) ++ ".mp3"), "mp3"⟩
    ∧ ".mp3".data <:+ (convertToMp3Path dp).data
    ∧ dp ∉ (downloadVideo videoUrl outputDir cs outcome options fs).fs
    ∧ ∀ p ∈ (downloadVideo videoUrl outputDir cs outcome options fs).fs,
        p = convertToMp3Path dp ∨ (p ∈ fs ∧ p ≠ dp) := by
  have hfmt : (if options.format = some "mp3" then "mp3" else "mp4") = "mp3" := if_pos hmp3
  have hrun : downloadVideo videoUrl outputDir cs outcome options fs =
      ⟨((executeDownload cs outcome).1.map wrapVideoCall) ++
        (if (executeDownload cs outcome).1.isEmpty then [((100 : ℚ), "Download complete")] else []),
       .ok ⟨(convertToMp3 dp (dp :: fs.filter (fun p => p ≠ dp))).2, "mp3"⟩,
       (convertToMp3 dp (dp :: fs.filter (fun p => p ≠ dp))).1⟩ := by
    simp only [downloadVideo, if_neg hu, if_neg hd, hok, hmp3]
    rfl
  refine ⟨?_, mp3_suffix_of_pathJoin _ _, ?_, ?_⟩
  · rw [hrun]
    rfl
  · rw [hrun]
    intro hmem
    simp only [convertToMp3, List.mem_filter] at hmem
    have := hmem.2
    simp at this
  · rw [hrun]
    intro p hp
    simp only [convertToMp3, List.mem_filter] at hp
    rcases hp with ⟨hp1, hpdp⟩
    have hpdp' : p ≠ dp := by simpa using hpdp
    rcases List.mem_cons.mp hp1 with h | h
    · exact Or.inl h
    · rcases List.mem_filter.mp h with ⟨h2, _⟩
      rcases List.mem_cons.mp h2 with h3 | h3
      · exact absurd h3 hpdp'
      · rcases List.mem_filter.mp h3 with ⟨h4, _⟩
        exact Or.inr ⟨h4, hpdp'⟩

/-- Witness for `c7_mp3_conversion` at a concrete successful mp3 run. -/
theorem c7_mp3_conversion_witness :
    (downloadVideo "https://example.com/v" "/out"
      [⟨.stdout, "Destination: /tmp/song.m4a"⟩] (.exited (some 0))
      ⟨some "mp3", none, none⟩ ["/tmp/other.txt"]).result =
      .ok ⟨pathJoin (pathDirname "/tmp/song.m4a")
            (pathBasenameExt "/tmp/song.m4a" (pathExtname "/tmp/song.m4a") ++ ".mp3"), "mp3"⟩
    ∧ "/tmp/song.m4a" ∉ (downloadVideo "https://example.com/v" "/out"
      [⟨.stdout, "Destination: /tmp/song.m4a"⟩] (.exited (some 0))
      ⟨some "mp3", none, none⟩ ["/tmp/other.txt"]).fs :=
  ⟨(c7_mp3_conversion "https://example.com/v" "/out"
      [⟨.stdout, "Destination: /tmp/song.m4a"⟩] (.exited (some 0))
      ⟨some "mp3", none, none⟩ ["/tmp/other.txt"] "/tmp/song.m4a"
      (by decide) (by decide) rfl (by decide)).1,
   (c7_mp3_conversion "https://example.com/v" "/out"
      [⟨.stdout, "Destination: /tmp/song.m4a"⟩] (.exited (some 0))
      ⟨some "mp3", none, none⟩ ["/tmp/other.txt"] "/tmp/song.m4a"
      (by decide) (by decide) rfl (by decide)).2.2.1⟩

/-! ### Decimal rendering of naturals (`String(n)` / template literals) -/

/-- Decimal digits of `n` (most significant first); the first argument is
structural fuel, always called with `fuel ≥ n`. -/
def renderNatAux : ℕ → ℕ → List Char
  | 0, _ => []
  | _ + 1, 0 => []
  | fuel + 1, n + 1 =>
    renderNatAux fuel ((n + 1) / 10) ++ [Nat.digitChar ((n + 1) % 10)]

def renderNatChars (n : ℕ) : List Char :=
  if n = 0 then ['0'] else renderNatAux n n

def renderNat (n : ℕ) : String := ⟨renderNatChars n⟩

/-! ### `sanitizeName` (lines 129–136) -/

/-- JS `\w`: ASCII letters, digits and underscore. -/
def isWordChar (c : Char) : Bool := c.isAlpha || c.isDigit || c = '_'

/-- `replace(/\s+/g, "_")`: each maximal whitespace run becomes one `'_'`. -/
def collapseWsAux : Bool → List Char → List Char
  | _, [] => []
  | prevWs, c :: r =>
    if c.isWhitespace then
      if prevWs then collapseWsAux true r else '_' :: collapseWsAux true r
    else c :: collapseWsAux false r

def sanitizeName (value : String) : String :=
  let v := if value = "" then "untitled" else value
  let kept := v.data.filter (fun c => isWordChar c || c.isWhitespace || c = '-')
  let t := trimChars (collapseWsAux false kept)
  if t.isEmpty then "untitled" else ⟨t⟩

/-! ### Media operation — playlist (`downloadPlaylist`, lines 294–377)

Each playlist item is downloaded by one `executeDownload` call whose
subprocess behaviour is injected per item index via `runs`; the loop is
strictly sequential and aborts on the first item failure.  The list of
subprocess invocations is recorded as the derived watch URLs, in the
order the downloads are started. -/

structure PlaylistItem where
  id : String
  title : Option String
deriving DecidableEq

structure PlaylistData where
  title : Option String
  items : List PlaylistItem
deriving DecidableEq

/-- The injected behaviour of the subprocess for one item. -/
structure ItemRun where
  chunks : List StreamChunk
  outcome : ExitOutcome

structure PlaylistResult where
  folderPath : String
  files : List String
deriving DecidableEq

/-- One invocation of the caller's playlist progress callback. -/
structure PlaylistCall where
  videoIndex : ℕ
  percent : ℚ
  totalVideos : ℕ
  videoId : String
  message : String
deriving DecidableEq

/-- `option || default` on strings (empty string is falsy). -/
def jsOrDefault (o : Option String) (d : String) : String :=
  match o with
  | some s => if s = "" then d else s
  | none => d

/-- `https://www.youtube.com/watch?v=${item.id}` -/
def itemUrl (it : PlaylistItem) : String :=
  "https://www.youtube.com/watch?v=" ++ it.id

/-- The per-item wrapped progress callback (lines 344–354). -/
def wrapPlaylistCall (i total : ℕ) (it : PlaylistItem) (sanitizedTitle : String)
    (c : ProgressCall) : PlaylistCall :=
  ⟨i, min 100 (jsOrZeroQ c.1), total, it.id,
    if c.2 = "" then
      "Downloading \"" ++ sanitizedTitle ++ "\" (" ++ renderNat (i + 1) ++ "/" ++
        renderNat total ++ ")"
    else c.2⟩

/-- `selectedVideoIds` filtering (lines 319–326): a non-empty array selects
exactly the playlist items whose id is in it, in playlist order. -/
def selectedItems (items : List PlaylistItem) (sel : Option (List String)) :
    List PlaylistItem :=
  match sel with
  | some ids => if ids.isEmpty then items else items.filter (fun it => ids.contains it.id)
  | none => items

structure PlaylistLoopOut where
  calls : List PlaylistCall
  invocations : List String
  filesE : Except String (List String)

/-- The sequential download loop (lines 339–374). -/
def playlistLoop (runs : ℕ → ItemRun) (total : ℕ) (targetFormat : String) :
    List PlaylistItem → ℕ → PlaylistLoopOut
  | [], _ => ⟨[], [], .ok []⟩
  | it :: rest, i =>
    let sTitle := sanitizeName (jsOrDefault it.title ("video_" ++ renderNat (i + 1)))
    let run := runs i
    let calls := (executeDownload run.chunks run.outcome).1.map
      (wrapPlaylistCall i total it sTitle)
    match (executeDownload run.chunks run.outcome).2 with
    | .error msg =>
      ⟨calls, [itemUrl it],
       .error ("Failed to download \"" ++ jsOrDefault it.title it.id ++ "\": " ++ msg)⟩
    | .ok dp =>
      let fp := if targetFormat = "mp3" then convertToMp3Path dp else dp
      let r := playlistLoop runs total targetFormat rest (i + 1)
      ⟨calls ++ r.calls, itemUrl it :: r.invocations, r.filesE.map (fp :: ·)⟩

structure PlaylistRun where
  calls : List PlaylistCall
  invocations : List String
  result : Except String PlaylistResult

def downloadPlaylist (playlistUrl outputDir : String) (pd : PlaylistData)
    (options : DownloadOptions) (runs : ℕ → ItemRun) : PlaylistRun :=
  if playlistUrl = "" then ⟨[], [], .error "Playlist URL is required."⟩
  else if outputDir = "" then ⟨[], [], .error "An output directory is required."⟩
  else
    let targetFormat := if options.format = some "mp3" then "mp3" else "mp4"
    let itemsToDownload := selectedItems pd.items options.selectedVideoIds
    if itemsToDownload.isEmpty then
      ⟨[], [], .error "No matching videos found in playlist."⟩
    else
      let folderName := sanitizeName (jsOrDefault pd.title "playlist")
      let playlistDir := pathJoin outputDir folderName
      let out := playlistLoop runs itemsToDownload.length targetFormat itemsToDownload 0
      ⟨out.calls, out.invocations, out.filesE.map (fun files => ⟨playlistDir, files⟩)⟩

/-! ### Claim C4 -/

theorem playlistLoop_ok (runs : ℕ → ItemRun) (total : ℕ) (fmt : String)
    (paths : ℕ → String)
    (hok : ∀ i, (executeDownload (runs i).chunks (runs i).outcome).2 = .ok (paths i)) :
    ∀ (items : List PlaylistItem) (i : ℕ),
      (playlistLoop runs total fmt items i).invocations = items.map itemUrl
      ∧ ∃ fls, (playlistLoop runs total fmt items i).filesE = .ok fls
          ∧ fls.length = items.length := by
  intro items
  induction items with
  | nil => intro i; exact ⟨rfl, [], rfl, rfl⟩
  | cons it rest ih =>
    intro i
    rcases ih (i + 1) with ⟨hinv, fls, hfls, hlen⟩
    simp only [playlistLoop, hok i]
    refine ⟨?_, ?_⟩
    · simp [hinv]
    · exact ⟨(if fmt = "mp3" then convertToMp3Path (paths i) else paths i) :: fls,
        by rw [hfls]; rfl, by simp [hlen]⟩

/-- C4: a non-empty `selectedVideoIds` restricts the playlist download to
exactly the listed items, in playlist order (a sublist of the listing); an
absent or empty selection downloads the whole listing; an empty filtered
set fails fast with zero subprocess invocations; and when every download
succeeds the invocations are exactly the selected items' derived URLs with
one artifact per selected item. -/
theorem c4_selection_filtering (playlistUrl outputDir : String) (pd : PlaylistData)
    (options : DownloadOptions) (runs : ℕ → ItemRun) (paths : ℕ → String)
    (hu : playlistUrl ≠ "") (hd : outputDir ≠ "")
    (hok : ∀ i, (executeDownload (runs i).chunks (runs i).outcome).2 = .ok (paths i)) :
    (∀ ids, options.selectedVideoIds = some ids → ids ≠ [] →
        selectedItems pd.items options.selectedVideoIds =
          pd.items.filter (fun it => ids.contains it.id)
        ∧ List.Sublist (selectedItems pd.items options.selectedVideoIds) pd.items)
    ∧ ((options.selectedVideoIds = none ∨ options.selectedVideoIds = some []) →
        selectedItems pd.items options.selectedVideoIds = pd.items)
    ∧ (selectedItems pd.items options.selectedVideoIds = [] →
        (downloadPlaylist playlistUrl outputDir pd options runs).invocations = []
        ∧ (downloadPlaylist playlistUrl outputDir pd options runs).result =
            .error "No matching videos found in playlist.")
    ∧ (selectedItems pd.items options.selectedVideoIds ≠ [] →
        (downloadPlaylist playlistUrl outputDir pd options runs).invocations =
          (selectedItems pd.items options.selectedVideoIds).map itemUrl
        ∧ ∃ r, (downloadPlaylist playlistUrl outputDir pd options runs).result = .ok r
            ∧ r.files.length = (selectedItems pd.items options.selectedVideoIds).length) := by
  refine ⟨?_, ?_, ?_, ?_⟩
  · intro ids hids hne
    have hie : ids.isEmpty = false := by
      cases ids with
      | nil => exact absurd rfl hne
      | cons a t => rfl
    constructor
    · simp [selectedItems, hids, hie]
    · have h : selectedItems pd.items options.selectedVideoIds =
          pd.items.filter (fun it => ids.contains it.id) := by
        simp [selectedItems, hids, hie]
      rw [h]
      exact List.filter_sublist _
  · intro h
    rcases h with h | h <;> simp [selectedItems, h]
  · intro hempty
    have hie : (selectedItems pd.items options.selectedVideoIds).isEmpty = true := by
      rw [hempty]; rfl
    constructor <;> simp [downloadPlaylist, if_neg hu, if_neg hd, hie]
  · intro hne
    have hie : (selectedItems pd.items options.selectedVideoIds).isEmpty = false := by
      cases h : selectedItems pd.items options.selectedVideoIds with
      | nil => exact absurd h hne
      | cons a t => rfl
    rcases playlistLoop_ok runs (selectedItems pd.items options.selectedVideoIds).length
        (if options.format = some "mp3" then "mp3" else "mp4") paths hok
        (selectedItems pd.items options.selectedVideoIds) 0 with ⟨hinv, fls, hfls, hlen⟩
    constructor
    · simp only [downloadPlaylist, if_neg hu, if_neg hd, hie]
      simpa using hinv
    · refine ⟨⟨pathJoin outputDir (sanitizeName (jsOrDefault pd.title "playlist")), fls⟩, ?_, ?_⟩
      · simp only [downloadPlaylist, if_neg hu, if_neg hd, hie]
        rw [hfls]
        rfl
      · exact hlen

/-- Concrete inputs for the `c4_selection_filtering` witness. -/
def demoPlaylist : PlaylistData :=
  ⟨some "Test", [⟨"a", some "A"⟩, ⟨"b", some "B"⟩, ⟨"c", some "C"⟩]⟩

def demoSelection : DownloadOptions := ⟨none, none, some ["c"]⟩

def demoRuns : ℕ → ItemRun :=
  fun _ => ⟨[⟨.stdout, "Destination: /tmp/c.mp4"⟩], .exited (some 0)⟩

def demoPaths : ℕ → String := fun _ => "/tmp/c.mp4"

/-- Witness for `c4_selection_filtering`: selecting the last item of a
three-item playlist invokes exactly that item's URL and yields one file. -/
theorem c4_selection_filtering_witness :
    (downloadPlaylist "https://www.youtube.com/playlist?list=t" "/out"
        demoPlaylist demoSelection demoRuns).invocations =
      (selectedItems demoPlaylist.items demoSelection.selectedVideoIds).map itemUrl
    ∧ ∃ r, (downloadPlaylist "https://www.youtube.com/playlist?list=t" "/out"
        demoPlaylist demoSelection demoRuns).result = .ok r
        ∧ r.files.length =
            (selectedItems demoPlaylist.items demoSelection.selectedVideoIds).length := by
  have h0 : (executeDownload [⟨.stdout, "Destination: /tmp/c.mp4"⟩]
      (.exited (some 0))).2 = .ok "/tmp/c.mp4" := by decide
  exact (c4_selection_filtering "https://www.youtube.com/playlist?list=t" "/out"
    demoPlaylist demoSelection demoRuns demoPaths
    (by decide) (by decide) (fun _ => h0)).2.2.2 (by decide)

/-! ### Claim C10 -/

theorem jsOrZeroQ_eq (p : ℚ) : jsOrZeroQ p = p := by
  unfold jsOrZeroQ
  split
  · exact (by assumption : p = 0).symm
  · rfl

theorem exec_calls_nonneg (cs : List StreamChunk) (outcome : ExitOutcome) :
    ∀ q ∈ (executeDownload cs outcome).1, 0 ≤ q.1 := by
  intro q hq
  have h := ((execRun_spec cs initExecState).2 q hq).1
  simpa using h

theorem playlistLoop_calls_bounds (runs : ℕ → ItemRun) (total : ℕ) (fmt : String) :
    ∀ (items : List PlaylistItem) (i : ℕ),
      ∀ c ∈ (playlistLoop runs total fmt items i).calls,
        0 ≤ c.percent ∧ c.percent ≤ 100 := by
  intro items
  induction items with
  | nil => intro i c hc; simp [playlistLoop] at hc
  | cons it rest ih =>
    intro i c hc
    have hmapped : ∀ x ∈ (executeDownload (runs i).chunks (runs i).outcome).1.map
        (wrapPlaylistCall i total it
          (sanitizeName (jsOrDefault it.title ("video_" ++ renderNat (i + 1))))),
        0 ≤ x.percent ∧ x.percent ≤ 100 := by
      intro x hx
      rcases List.mem_map.mp hx with ⟨q, hq, rfl⟩
      have h0 := exec_calls_nonneg (runs i).chunks (runs i).outcome q hq
      unfold wrapPlaylistCall
      constructor
      · exact le_min (by norm_num) (by rw [jsOrZeroQ_eq]; exact h0)
      · exact min_le_left _ _
    simp only [playlistLoop] at hc
    split at hc
    · exact hmapped c hc
    · rcases List.mem_append.mp hc with h | h
      · exact hmapped c h
      · exact ih (i + 1) c h

/-- C10: every percent value `downloadVideo` or `downloadPlaylist` passes to
the caller-supplied progress callback lies between 0 and 100: the wrappers
clamp with `Math.min(100, percent || 0)` and parsed percentages are never
negative. -/
theorem c10_percent_bounds :
    (∀ (videoUrl outputDir : String) (cs : List StreamChunk) (outcome : ExitOutcome)
        (options : DownloadOptions) (fs : List String),
        ∀ c ∈ (downloadVideo videoUrl outputDir cs outcome options fs).calls,
          0 ≤ c.1 ∧ c.1 ≤ 100)
    ∧ (∀ (playlistUrl outputDir : String) (pd : PlaylistData)
        (options : DownloadOptions) (runs : ℕ → ItemRun),
        ∀ c ∈ (downloadPlaylist playlistUrl outputDir pd options runs).calls,
          0 ≤ c.percent ∧ c.percent ≤ 100) := by
  constructor
  · intro videoUrl outputDir cs outcome options fs c hc
    have hwrap : ∀ x ∈ (executeDownload cs outcome).1.map wrapVideoCall,
        0 ≤ x.1 ∧ x.1 ≤ 100 := by
      intro x hx
      rcases List.mem_map.mp hx with ⟨q, hq, rfl⟩
      have h0 := exec_calls_nonneg cs outcome q hq
      unfold wrapVideoCall
      constructor
      · exact le_min (by norm_num) (by rw [jsOrZeroQ_eq]; exact h0)
      · exact min_le_left _ _
    simp only [downloadVideo] at hc
    split at hc
    · simp at hc
    · split at hc
      · simp at hc
      · split at hc
        · exact hwrap c hc
        · rcases List.mem_append.mp hc with h | h
          · exact hwrap c h
          · split at h
            · have : c = ((100 : ℚ), "Download complete") := by simpa using h
              rw [this]
              norm_num
            · simp at h
  · intro playlistUrl outputDir pd options runs c hc
    simp only [downloadPlaylist] at hc
    split at hc
    · simp at hc
    · split at hc
      · simp at hc
      · split at hc
        · simp at hc
        · exact playlistLoop_calls_bounds runs _ _ _ 0 c hc

/-! ### Job status facade (`src/app/api/jobs/[id]/events/route.ts`)

The `GET` handler's `start` callback first registers the live event
handlers, then synchronously reads the job and its state and emits the
initial synthetic event(s) before any live event can be relayed.  The
initial sequence — the events a newly subscribing client receives before
any live traffic — is embedded below.  (The current route is the variant
with the `getState` check, which the repository's integration test
`src/tests/integration/jobs-events.test.ts` exercises; heartbeats carry no
job data and are not job events.  Infrastructure exceptions from
`getJob`/`getState`, which the route maps to a generic error event, are
outside the model.) -/

inductive JobState
  | waiting
  | active
  | delayed
  | completed
  | failed
deriving DecidableEq

/-- The fields the route reads from a persisted `returnvalue` object;
`none` models an absent or wrongly-typed field.  File entries are opaque
to the route and abstracted as strings. -/
structure RawReturnValue where
  downloadUrl : Option String
  files : Option (List String)
  folderPath : Option String
deriving DecidableEq

/-- The persisted `job.progress` value: a number, an object, or something
else (BullMQ initialises it to `0`). -/
inductive ProgressValue
  | num (p : ℚ)
  | obj (percent : Option ℚ) (message : Option String) (videoIndex : Option ℕ)
  | nonObject
deriving DecidableEq

structure JobRecord where
  state : JobState
  returnvalue : Option RawReturnValue
  progress : ProgressValue
  failedReason : Option String
deriving DecidableEq

structure NormalizedProgress where
  percent : ℚ
  message : Option String
  videoIndex : Option ℕ
deriving DecidableEq

/-- `message || null` on an optional string. -/
def jsOrNull : Option String → Option String
  | some s => if s = "" then none else some s
  | none => none

/-- `normalizeProgress` (route lines 156–175). -/
def normalizeProgress : ProgressValue → NormalizedProgress
  | .obj p m v => ⟨match p with | some q => q | none => 0, jsOrNull m, v⟩
  | .num p => ⟨p, none, none⟩
  | .nonObject => ⟨0, none, none⟩

/-- One SSE `data:` payload relevant to a job (heartbeats omitted). -/
inductive SseEvent
  | progress (percent : ℚ) (message : Option String) (videoIndex : Option ℕ)
  | complete (url : Option String) (files : Option (List String)) (folderPath : Option String)
  | error (message : String)
deriving DecidableEq

def SseEvent.isProgress : SseEvent → Bool
  | .progress _ _ _ => true
  | _ => false

/-- The defensive `returnvalue` field extraction (route lines 291–299). -/
def extractReturnFields (rv : Option RawReturnValue) :
    Option String × Option (List String) × Option String :=
  match rv with
  | some r => (r.downloadUrl, r.files, r.folderPath)
  | none => (none, none, none)

/-- The initial synthetic events a new subscription emits, from the job
lookup result and the job's persisted state (route lines 281–324). -/
def subscribeInitialEvents (lookup : Option JobRecord) : List SseEvent :=
  match lookup with
  | none => [.error "Job not found"]
  | some job =>
    match job.state with
    | .completed =>
      [.complete (extractReturnFields job.returnvalue).1
        (extractReturnFields job.returnvalue).2.1
        (extractReturnFields job.returnvalue).2.2]
    | .failed => [.error (jsOrDefault job.failedReason "Job failed")]
    | _ =>
      [.progress (normalizeProgress job.progress).percent
        (some (jsOrDefault (normalizeProgress job.progress).message "Waiting for worker..."))
        (normalizeProgress job.progress).videoIndex]

/-! ### Claim C2 -/

/-- C2: subscribing to a job that has already completed immediately yields
a terminal `complete` event carrying the persisted return value's url,
files and folderPath as the first (and only) initial job event, and no
`progress` event with the stale persisted progress is emitted. -/
theorem c2_late_subscription (job : JobRecord) (h : job.state = .completed) :
    subscribeInitialEvents (some job) =
      [.complete (extractReturnFields job.returnvalue).1
        (extractReturnFields job.returnvalue).2.1
        (extractReturnFields job.returnvalue).2.2]
    ∧ ∀ e ∈ subscribeInitialEvents (some job), e.isProgress = false := by
  have hsub : subscribeInitialEvents (some job) =
      [.complete (extractReturnFields job.returnvalue).1
        (extractReturnFields job.returnvalue).2.1
        (extractReturnFields job.returnvalue).2.2] := by
    cases job with
    | mk st rv pr fr =>
      have h' : st = JobState.completed := h
      subst h'
      rfl
  refine ⟨hsub, ?_⟩
  intro e he
  rw [hsub] at he
  simp at he
  rw [he]
  rfl

/-- Witness for `c2_late_subscription` at a concrete completed job with a
stale persisted progress value. -/
theorem c2_late_subscription_witness :
    subscribeInitialEvents (some ⟨.completed,
        some ⟨some "/api/files/1/a.mp4?token=t", some ["a.mp4"], some "/data/storage/1/files"⟩,
        .obj (some 100) (some "Video download complete") none, none⟩) =
      [.complete (some "/api/files/1/a.mp4?token=t") (some ["a.mp4"]) (some "/data/storage/1/files")]
    ∧ ∀ e ∈ subscribeInitialEvents (some ⟨.completed,
        some ⟨some "/api/files/1/a.mp4?token=t", some ["a.mp4"], some "/data/storage/1/files"⟩,
        .obj (some 100) (some "Video download complete") none, none⟩),
        e.isProgress = false :=
  c2_late_subscription ⟨.completed,
    some ⟨some "/api/files/1/a.mp4?token=t", some ["a.mp4"], some "/data/storage/1/files"⟩,
    .obj (some 100) (some "Video download complete") none, none⟩ rfl

/-! ### Job queue options (`src/utils/queue.ts`, lines 42–54) and
dead-letter routing (`src/dist/workers/downloadWorker.js`, lines 158–172)

`getDefaultJobOptions` reads numeric/text environment overrides; an unset
variable falls back to the default (`Number(process.env.X || d)`);
environment values are modelled as already-parsed options. -/

structure QueueEnv where
  jobAttempts : Option ℕ
  jobBackoffType : Option String
  jobBackoffDelay : Option ℕ
  jobRemoveOnCompleteAge : Option ℕ
deriving DecidableEq

structure BackoffOptions where
  type : String
  delay : ℕ
deriving DecidableEq

structure JobOptions where
  attempts : ℕ
  backoff : BackoffOptions
  removeOnCompleteAge : ℕ
  removeOnFail : Bool
deriving DecidableEq

/-- `getDefaultJobOptions` from `src/utils/queue.ts`: attempts default 3,
exponential backoff with base delay 5000 ms, completed jobs removed after
an age window, failed jobs retained (`removeOnFail: false`). -/
def getDefaultJobOptions (env : QueueEnv) : JobOptions :=
  ⟨match env.jobAttempts with | some n => n | none => 3,
   ⟨match env.jobBackoffType with | some t => t | none => "exponential",
    match env.jobBackoffDelay with | some d => d | none => 5000⟩,
   match env.jobRemoveOnCompleteAge with | some a => a | none => 3600,
   false⟩

/-- The record the worker's `failed` handler adds to the `download-failed`
queue (`downloadWorker.js` lines 161–166): the job id, the original
payload, the attempts made, and the final error message. -/
structure DeadLetter (α : Type) where
  jobId : String
  data : α
  attemptsMade : ℕ
  error : String

/-- Modelled from the spec: the queue backend (BullMQ, an external
collaborator not present in the repository) requeues a job that throws for
retry "up to N attempts (configurable, default 3) with exponentially
increasing delay (configurable base delay), after which it is marked
`failed` terminally".  `exec k` is the k-th execution attempt (1-based);
the loop returns the attempts actually made and the terminal outcome. -/
def runAttempts {β : Type} (exec : ℕ → Except String β) :
    ℕ → ℕ → ℕ × Except String β
  | 0, made => (made, .error "no attempts configured")
  | n + 1, made =>
    match exec (made + 1) with
    | .ok v => (made + 1, .ok v)
    | .error e => if n = 0 then (made + 1, .error e) else runAttempts exec n (made + 1)

/-- Modelled from the spec: the delay before retry `k` (1-based) under the
configured backoff: exponential doubles the base delay per attempt. -/
def backoffDelay (opts : JobOptions) (k : ℕ) : ℕ :=
  if opts.backoff.type = "exponential" then opts.backoff.delay * 2 ^ (k - 1)
  else opts.backoff.delay

/-- Modelled from the spec + the worker's `failed` handler: run a job to a
terminal outcome under the retry policy; on terminal failure route exactly
one dead-letter record carrying the original payload, the attempt count
reached, and the final error message.  Returns
`(attemptsMade, outcome, deadLetters, retryDelays)`. -/
def runJobLifecycle {α β : Type} (opts : JobOptions) (jobId : String) (payload : α)
    (exec : ℕ → Except String β) :
    ℕ × Except String β × List (DeadLetter α) × List ℕ :=
  let r := runAttempts exec opts.attempts 0
  let dls : List (DeadLetter α) :=
    match r.2 with
    | .error e => [⟨jobId, payload, r.1, e⟩]
    | .ok _ => []
  (r.1, r.2, dls, (List.range (r.1 - 1)).map (fun i => backoffDelay opts (i + 1)))

theorem runAttempts_always_fails {β : Type} (errs : ℕ → String) :
    ∀ (n made : ℕ), 1 ≤ n →
      runAttempts (fun k => (Except.error (errs k) : Except String β)) n made =
        (made + n, .error (errs (made + n))) := by
  intro n
  induction n with
  | zero => intro made h; exact absurd h (by norm_num)
  | succ m ih =>
    intro made _
    by_cases hm : m = 0
    · subst hm
      simp [runAttempts]
    · have h1 : 1 ≤ m := Nat.one_le_iff_ne_zero.mpr hm
      have := ih (made + 1) h1
      simp only [runAttempts, if_neg hm]
      rw [this]
      have harith : made + 1 + m = made + (m + 1) := by omega
      rw [harith]

/-! ### Claim C3 -/

/-- C3: a job whose execution throws on every attempt is retried up to the
configured attempt count (default 3 when the environment sets none), with
exponential backoff delays `delay * 2^k` from the configurable base delay
(default 5000 ms), is executed exactly `attempts` times (never an
(N+1)-th), is retained after terminal failure (`removeOnFail = false`),
and exactly one dead-letter record is routed carrying the original
payload, the attempt count reached, and the final error message. -/
theorem c3_retry_dead_letter {α : Type} (env : QueueEnv) (jobId : String) (payload : α)
    (errs : ℕ → String) (hatt : 1 ≤ (getDefaultJobOptions env).attempts) :
    (env.jobAttempts = none → (getDefaultJobOptions env).attempts = 3)
    ∧ (env.jobBackoffDelay = none → (getDefaultJobOptions env).backoff.delay = 5000)
    ∧ (getDefaultJobOptions env).removeOnFail = false
    ∧ (runJobLifecycle (getDefaultJobOptions env) jobId payload
        (fun k => (Except.error (errs k) : Except String Unit))).1 =
        (getDefaultJobOptions env).attempts
    ∧ (runJobLifecycle (getDefaultJobOptions env) jobId payload
        (fun k => (Except.error (errs k) : Except String Unit))).2.1 =
        .error (errs (getDefaultJobOptions env).attempts)
    ∧ (runJobLifecycle (getDefaultJobOptions env) jobId payload
        (fun k => (Except.error (errs k) : Except String Unit))).2.2.1 =
        [⟨jobId, payload, (getDefaultJobOptions env).attempts,
          errs (getDefaultJobOptions env).attempts⟩]
    ∧ (env.jobBackoffType = none →
        (runJobLifecycle (getDefaultJobOptions env) jobId payload
          (fun k => (Except.error (errs k) : Except String Unit))).2.2.2 =
          (List.range ((getDefaultJobOptions env).attempts - 1)).map
            (fun i => (getDefaultJobOptions env).backoff.delay * 2 ^ i)) := by
  have hrun := runAttempts_always_fails (β := Unit) errs
    (getDefaultJobOptions env).attempts 0 hatt
  have hrl : runJobLifecycle (getDefaultJobOptions env) jobId payload
      (fun k => (Except.error (errs k) : Except String Unit)) =
      ((getDefaultJobOptions env).attempts,
       .error (errs (getDefaultJobOptions env).attempts),
       [⟨jobId, payload, (getDefaultJobOptions env).attempts,
         errs (getDefaultJobOptions env).attempts⟩],
       (List.range ((getDefaultJobOptions env).attempts - 1)).map
         (fun i => backoffDelay (getDefaultJobOptions env) (i + 1))) := by
    unfold runJobLifecycle
    rw [hrun]
    simp
  refine ⟨?_, ?_, rfl, ?_, ?_, ?_, ?_⟩
  · intro h
    simp [getDefaultJobOptions, h]
  · intro h
    simp [getDefaultJobOptions, h]
  · rw [hrl]
  · rw [hrl]
  · rw [hrl]
  · intro h
    rw [hrl]
    apply List.map_congr_left
    intro i _
    unfold backoffDelay
    have ht : (getDefaultJobOptions env).backoff.type = "exponential" := by
      simp [getDefaultJobOptions, h]
    rw [if_pos ht]
    simp

/-- Witness for `c3_retry_dead_letter` with the default environment: three
attempts, one dead-letter record, delays 5000 and 10000. -/
theorem c3_retry_dead_letter_witness :
    (runJobLifecycle (getDefaultJobOptions ⟨none, none, none, none⟩) "7" "payload"
        (fun k => (Except.error ("boom " ++ renderNat k) : Except String Unit))).1 =
      (getDefaultJobOptions ⟨none, none, none, none⟩).attempts
    ∧ (runJobLifecycle (getDefaultJobOptions ⟨none, none, none, none⟩) "7" "payload"
        (fun k => (Except.error ("boom " ++ renderNat k) : Except String Unit))).2.2.1 =
      [⟨"7", "payload", (getDefaultJobOptions ⟨none, none, none, none⟩).attempts,
        ("boom " ++ renderNat (getDefaultJobOptions ⟨none, none, none, none⟩).attempts)⟩] := by
  have h := c3_retry_dead_letter (⟨none, none, none, none⟩ : QueueEnv) "7" "payload"
    (fun k => "boom " ++ renderNat k) (by decide)
  exact ⟨h.2.2.2.1, h.2.2.2.2.2.1⟩

/-! ### Worker filesystem handling (`src/dist/workers/downloadWorker.js`)

`processJob` prepares `STORAGE_ROOT/<jobId>/files` and `TMP_ROOT/<jobId>`,
runs the media operation in the temp directory, on success moves each
resolved output into the files directory under its basename
(`finalizeFiles`), and in a `finally` block removes the temp directory
tree on both the success and the failure path.  Paths are modelled as
segment lists (`path.join` of clean segments is concatenation); the
filesystem is the list of existing file paths. -/

/-- A filesystem path as its `/`-separated segments. -/
abbrev FPath := List String

/-- `path.join(STORAGE_ROOT, String(jobId), "files")` with
`STORAGE_ROOT = path.join(OUTPUT_BASE, "storage")`. -/
def filesDir (base jobId : String) : FPath := [base, "storage", jobId, "files"]

/-- `path.join(TMP_ROOT, String(jobId))` with
`TMP_ROOT = path.join(OUTPUT_BASE, "tmp")`. -/
def tempDir (base jobId : String) : FPath := [base, "tmp", jobId]

/-- Is `p` the directory `d` or inside its tree? -/
def inTree (d p : FPath) : Bool :=
  match d, p with
  | [], _ => true
  | _ :: _, [] => false
  | a :: as, b :: bs => a = b && inTree as bs

/-- `fs.remove(dir)`: deletes the directory tree. -/
def removeTree (d : FPath) (fs : List FPath) : List FPath :=
  fs.filter (fun p => !inTree d p)

/-- `fs.move(src, dst, { overwrite: true })`. -/
def moveFile (src dst : FPath) (fs : List FPath) : List FPath :=
  dst :: fs.filter (fun p => ¬(p = src ∨ p = dst))

/-- `finalizeFiles` (lines 62–72): moves each resolved output into the
job's files directory under its basename; returns the moved destination
paths and the new filesystem. -/
def finalizeFiles (base jobId : String) :
    List FPath → List FPath → List FPath × List FPath
  | [], fs => ([], fs)
  | src :: rest, fs =>
    let dst := filesDir base jobId ++ [(src.getLast?).getD ""]
    let r := finalizeFiles base jobId rest (moveFile src dst fs)
    (dst :: r.1, r.2)

/-- `processJob` (lines 122–149) at the filesystem level: `outcome` is
`some tempPaths` when the media operation resolves with those output files
and `none` when it throws; the temp tree removal runs in `finally` on both
paths.  Returns the moved destinations and the final filesystem. -/
def processJobFs (base jobId : String) (outcome : Option (List FPath))
    (fs : List FPath) : List FPath × List FPath :=
  match outcome with
  | some tempPaths =>
    let r := finalizeFiles base jobId tempPaths fs
    (r.1, removeTree (tempDir base jobId) r.2)
  | none => ([], removeTree (tempDir base jobId) fs)

theorem inTree_append_self (d : FPath) : ∀ l : List String, inTree d (d ++ l) = true := by
  induction d with
  | nil => intro l; rfl
  | cons a as ih =>
    intro l
    have h := ih l
    simp [inTree, List.append_eq, h]

/-- The files directory and the temp directory of a job are disjoint
trees (`storage` vs `tmp`). -/
theorem not_inTree_temp_of_inTree_files (base jobId : String) (p : FPath)
    (h : inTree (filesDir base jobId) p = true) :
    inTree (tempDir base jobId) p = false := by
  match p with
  | [] => simp [filesDir, inTree] at h
  | [x] => simp [filesDir, inTree] at h
  | x :: y :: rest =>
    simp only [filesDir, inTree, Bool.and_eq_true, decide_eq_true_eq] at h
    obtain ⟨hx, hy, _⟩ := h
    simp [tempDir, inTree, ← hy]

theorem removeTree_not_inTree (d : FPath) (fs : List FPath) :
    ∀ p ∈ removeTree d fs, inTree d p = false := by
  intro p hp
  rcases List.mem_filter.mp hp with ⟨_, h⟩
  simpa using h

/-- A path inside the files tree survives `finalizeFiles` of sources that
all live inside the (disjoint) temp tree. -/
theorem finalizeFiles_preserves_files (base jobId : String) :
    ∀ (tempPaths : List FPath) (fs : List FPath) (p : FPath),
      (∀ src ∈ tempPaths, inTree (tempDir base jobId) src = true) →
      inTree (filesDir base jobId) p = true →
      p ∈ fs →
      p ∈ (finalizeFiles base jobId tempPaths fs).2 := by
  intro tempPaths
  induction tempPaths with
  | nil => intro fs p _ _ hmem; exact hmem
  | cons src rest ih =>
    intro fs p hsrc hfiles hmem
    simp only [finalizeFiles]
    apply ih (moveFile src (filesDir base jobId ++ [(src.getLast?).getD ""]) fs) p
      (fun s hs => hsrc s (List.mem_cons_of_mem _ hs)) hfiles
    by_cases hdst : p = filesDir base jobId ++ [(src.getLast?).getD ""]
    · rw [hdst]; exact List.mem_cons_self _ _
    · have hpsrc : p ≠ src := by
        intro he
        have := hsrc src (List.mem_cons_self _ _)
        rw [← he] at this
        rw [not_inTree_temp_of_inTree_files base jobId p hfiles] at this
        exact Bool.false_ne_true this
      apply List.mem_cons_of_mem
      apply List.mem_filter.mpr
      refine ⟨hmem, ?_⟩
      simp [hpsrc, hdst]

/-- Every moved destination is in the files tree and present after
`finalizeFiles` when all sources live in the temp tree. -/
theorem finalizeFiles_moved (base jobId : String) :
    ∀ (tempPaths : List FPath) (fs : List FPath),
      (∀ src ∈ tempPaths, inTree (tempDir base jobId) src = true) →
      ∀ d ∈ (finalizeFiles base jobId tempPaths fs).1,
        inTree (filesDir base jobId) d = true
        ∧ d ∈ (finalizeFiles base jobId tempPaths fs).2 := by
  intro tempPaths
  induction tempPaths with
  | nil => intro fs _ d hd; simp [finalizeFiles] at hd
  | cons src rest ih =>
    intro fs hsrc d hd
    simp only [finalizeFiles] at hd ⊢
    rcases List.mem_cons.mp hd with h | h
    · subst h
      have hin : inTree (filesDir base jobId)
          (filesDir base jobId ++ [(src.getLast?).getD ""]) = true :=
        inTree_append_self _ _
      refine ⟨hin, ?_⟩
      apply finalizeFiles_preserves_files base jobId rest _ _
        (fun s hs => hsrc s (List.mem_cons_of_mem _ hs)) hin
      exact List.mem_cons_self _ _
    · exact ih (moveFile src (filesDir base jobId ++ [(src.getLast?).getD ""]) fs)
        (fun s hs => hsrc s (List.mem_cons_of_mem _ hs)) d h

/-- Anything in the filesystem after `finalizeFiles` is a moved
destination or was already present. -/
theorem finalizeFiles_subset (base jobId : String) :
    ∀ (tempPaths : List FPath) (fs : List FPath),
      ∀ p ∈ (finalizeFiles base jobId tempPaths fs).2,
        p ∈ (finalizeFiles base jobId tempPaths fs).1 ∨ p ∈ fs := by
  intro tempPaths
  induction tempPaths with
  | nil => intro fs p hp; exact Or.inr hp
  | cons src rest ih =>
    intro fs p hp
    simp only [finalizeFiles] at hp ⊢
    rcases ih (moveFile src (filesDir base jobId ++ [(src.getLast?).getD ""]) fs) p hp with h | h
    · exact Or.inl (List.mem_cons_of_mem _ h)
    · rcases List.mem_cons.mp h with h1 | h1
      · exact Or.inl (List.mem_cons.mpr (Or.inl h1))
      · exact Or.inr (List.mem_filter.mp h1).1

/-! ### Claim C8 -/

/-- C8: whether the media operation resolves (`outcome = some tempPaths`)
or throws (`outcome = none`), after `processJob` no file under the job's
temp directory remains (the `finally` removal runs on both paths); and
when the job's final storage directory starts empty, the files tree
afterwards contains exactly the moved resolved outputs — temp contents
besides resolved outputs are discarded. -/
theorem c8_guaranteed_cleanup (base jobId : String) (outcome : Option (List FPath))
    (fs : List FPath)
    (hclean : ∀ p ∈ fs, inTree (filesDir base jobId) p = false)
    (htemp : ∀ tempPaths, outcome = some tempPaths →
      ∀ src ∈ tempPaths, inTree (tempDir base jobId) src = true) :
    (∀ p ∈ (processJobFs base jobId outcome fs).2,
        inTree (tempDir base jobId) p = false)
    ∧ (∀ p ∈ (processJobFs base jobId outcome fs).2,
        inTree (filesDir base jobId) p = true →
          p ∈ (processJobFs base jobId outcome fs).1)
    ∧ (∀ d ∈ (processJobFs base jobId outcome fs).1,
        d ∈ (processJobFs base jobId outcome fs).2) := by
  match outcome with
  | none =>
    refine ⟨fun p hp => removeTree_not_inTree _ _ p hp, ?_, ?_⟩
    · intro p hp hfiles
      have hmem : p ∈ fs := (List.mem_filter.mp hp).1
      rw [hclean p hmem] at hfiles
      exact absurd hfiles (by simp)
    · intro d hd
      simp [processJobFs] at hd
  | some tempPaths =>
    have hsrcs := htemp tempPaths rfl
    refine ⟨fun p hp => removeTree_not_inTree _ _ p hp, ?_, ?_⟩
    · intro p hp hfiles
      have hmem : p ∈ (finalizeFiles base jobId tempPaths fs).2 :=
        (List.mem_filter.mp hp).1
      rcases finalizeFiles_subset base jobId tempPaths fs p hmem with h | h
      · exact h
      · rw [hclean p h] at hfiles
        exact absurd hfiles (by simp)
    · intro d hd
      rcases finalizeFiles_moved base jobId tempPaths fs hsrcs d hd with ⟨hin, hmem⟩
      apply List.mem_filter.mpr
      refine ⟨hmem, ?_⟩
      rw [not_inTree_temp_of_inTree_files base jobId d hin]
      rfl

/-- Witness for `c8_guaranteed_cleanup`: a successful job whose resolved
output sits in its temp directory, with a leftover intermediate file. -/
theorem c8_guaranteed_cleanup_witness :
    (∀ p ∈ (processJobFs "/data" "9"
        (some [["/data", "tmp", "9", "a.mp4"]])
        [["/data", "tmp", "9", "a.mp4"], ["/data", "tmp", "9", "junk.part"]]).2,
      inTree (tempDir "/data" "9") p = false)
    ∧ (∀ d ∈ (processJobFs "/data" "9"
        (some [["/data", "tmp", "9", "a.mp4"]])
        [["/data", "tmp", "9", "a.mp4"], ["/data", "tmp", "9", "junk.part"]]).1,
      d ∈ (processJobFs "/data" "9"
        (some [["/data", "tmp", "9", "a.mp4"]])
        [["/data", "tmp", "9", "a.mp4"], ["/data", "tmp", "9", "junk.part"]]).2) := by
  have h := c8_guaranteed_cleanup "/data" "9"
    (some [["/data", "tmp", "9", "a.mp4"]])
    [["/data", "tmp", "9", "a.mp4"], ["/data", "tmp", "9", "junk.part"]]
    (by decide) (by intro tp htp; cases htp; decide)
  exact ⟨h.1, h.2.2⟩

/-! ### Signed download tokens (`src/utils/downloadToken.ts`)

`signDownloadToken` produces `v1.<expiresAtMs>.<hmacHex>` over the payload
`` `${jobId}:${fileName}:${expiresAtMs}` ``; `verifyDownloadToken` splits
on `'.'`, checks the version, parses and checks the expiry, recomputes the
HMAC over the payload rebuilt from its own arguments and compares
(`timingSafeEqual` over equal-length buffers, length mismatch caught to
`false` — i.e. string equality).  The keyed `HMAC-SHA256` hex digest for
the process secret is abstracted as an injected function
`hmac : String → String`; its collision-freeness on the payloads at hand
is a hypothesis.  `Number(s)` on a token part is modelled for decimal
digit strings (the only values `String(n)` produces); any other part
fails the parse, as every non-numeric string does in the source.
Timestamps are naturals (milliseconds). -/

/-- `String.prototype.split('.')` on a character list. -/
def splitDots : List Char → List (List Char)
  | [] => [[]]
  | c :: r =>
    if c = '.' then [] :: splitDots r
    else (c :: (splitDots r).headD []) :: (splitDots r).tail

/-- `Number(s)` restricted to (non-empty) decimal digit strings. -/
def parseNatChars? (l : List Char) : Option ℕ :=
  if l ≠ [] ∧ l.all Char.isDigit then some (digitsVal l) else none

def tokenPayload (jobId fileName : String) (expiresAtMs : ℕ) : String :=
  jobId ++ ":" ++ fileName ++ ":" ++ renderNat expiresAtMs

/-- `signDownloadToken` (lines 21–32). -/
def signDownloadToken (hmac : String → String) (jobId fileName : String)
    (expiresAtMs : ℕ) : String :=
  "v1." ++ renderNat expiresAtMs ++ "." ++ hmac (tokenPayload jobId fileName expiresAtMs)

/-- `verifyDownloadToken` (lines 34–64). -/
def verifyDownloadToken (hmac : String → String) (now : ℕ) (jobId fileName : String)
    (token : String) : Bool :=
  if token = "" then false
  else
    if (splitDots token.data).length = 3 then
      if (splitDots token.data).headD [] = "v1".data then
        match parseNatChars? ((splitDots token.data).getD 1 []) with
        | some expiresAtMs =>
          if expiresAtMs = 0 then false
          else if now > expiresAtMs then false
          else decide ((hmac (tokenPayload jobId fileName expiresAtMs)).data =
                 (splitDots token.data).getD 2 [])
        | none => false
      else false
    else false

/-! #### Split and decimal-rendering lemmas -/

theorem splitDots_no_dot : ∀ l : List Char, '.' ∉ l → splitDots l = [l] := by
  intro l
  induction l with
  | nil => intro _; rfl
  | cons c r ih =>
    intro h
    have hc : ¬c = '.' := fun he => h (he ▸ List.mem_cons_self c r)
    have hr := ih (fun hm => h (List.mem_cons_of_mem c hm))
    simp [splitDots, hc, hr]

theorem splitDots_append (a : List Char) (r : List Char) (h : '.' ∉ a) :
    splitDots (a ++ '.' :: r) = a :: splitDots r := by
  induction a with
  | nil => simp [splitDots]
  | cons c as ih =>
    have hc : ¬c = '.' := fun he => h (he ▸ List.mem_cons_self c as)
    have has := ih (fun hm => h (List.mem_cons_of_mem c hm))
    simp [splitDots, hc, has]

theorem digitChar_props :
    ∀ d : ℕ, d < 10 →
      (Nat.digitChar d).toNat - 48 = d ∧ (Nat.digitChar d).isDigit = true ∧
        Nat.digitChar d ≠ '.' := by
  decide

theorem digitsVal_append_singleton (xs : List Char) (c : Char) :
    digitsVal (xs ++ [c]) = 10 * digitsVal xs + (c.toNat - 48) := by
  unfold digitsVal
  rw [List.foldl_append]
  rfl

theorem renderNatAux_spec : ∀ fuel n : ℕ, n ≤ fuel →
    digitsVal (renderNatAux fuel n) = n
    ∧ ∀ c ∈ renderNatAux fuel n, c.isDigit = true ∧ c ≠ '.' := by
  intro fuel
  induction fuel with
  | zero =>
    intro n h
    have h0 : n = 0 := Nat.le_zero.mp h
    subst h0
    exact ⟨rfl, by intro c hc; simp [renderNatAux] at hc⟩
  | succ m ih =>
    intro n h
    match n with
    | 0 => exact ⟨rfl, by intro c hc; simp [renderNatAux] at hc⟩
    | k + 1 =>
      have hdiv : (k + 1) / 10 ≤ m := by
        have := Nat.div_lt_self (Nat.succ_pos k) (by norm_num : 1 < 10)
        omega
      rcases ih ((k + 1) / 10) hdiv with ⟨hval, hdig⟩
      have hlt : (k + 1) % 10 < 10 := Nat.mod_lt _ (by norm_num)
      rcases digitChar_props _ hlt with ⟨hv, hd, hnd⟩
      constructor
      · show digitsVal (renderNatAux m ((k + 1) / 10) ++ [Nat.digitChar ((k + 1) % 10)]) = k + 1
        rw [digitsVal_append_singleton, hval, hv]
        exact Nat.div_add_mod (k + 1) 10
      · intro c hc
        simp only [renderNatAux, List.mem_append, List.mem_singleton] at hc
        rcases hc with hc | hc
        · exact hdig c hc
        · exact hc ▸ ⟨hd, hnd⟩

theorem parseNatChars?_renderNatChars (n : ℕ) :
    parseNatChars? (renderNatChars n) = some n := by
  by_cases h : n = 0
  · subst h
    decide
  · unfold renderNatChars
    rw [if_neg h]
    rcases renderNatAux_spec n n (le_refl n) with ⟨hval, hdig⟩
    have hne : renderNatAux n n ≠ [] := by
      obtain ⟨k, rfl⟩ := Nat.exists_eq_succ_of_ne_zero h
      simp [renderNatAux]
    have hall : (renderNatAux n n).all Char.isDigit = true := by
      rw [List.all_eq_true]
      intro c hc
      exact (hdig c hc).1
    unfold parseNatChars?
    rw [if_pos ⟨hne, hall⟩, hval]

theorem renderNatChars_no_dot (n : ℕ) : '.' ∉ renderNatChars n := by
  unfold renderNatChars
  split
  · decide
  · intro hmem
    exact ((renderNatAux_spec n n (le_refl n)).2 _ hmem).2 rfl

/-! ### Claim C9 -/

/-- C9 (amended): signed tokens verify before their expiry and fail once
it has passed; a token never verifies under a `(jobId, fileName)` pair
whose colon-joined payload differs from the signed one (in particular any
pair yielding a different HMAC input), and malformed tokens are rejected.
The HMAC is abstracted; `hdot` states its hex digest contains no dot. -/
theorem c9_token_verification (hmac : String → String) (jobId fileName : String)
    (expiresAtMs now : ℕ)
    (hdot : '.' ∉ (hmac (tokenPayload jobId fileName expiresAtMs)).data) :
    (verifyDownloadToken hmac now jobId fileName
        (signDownloadToken hmac jobId fileName expiresAtMs) = true ↔
      (now ≤ expiresAtMs ∧ 0 < expiresAtMs))
    ∧ (∀ jobId' fileName' : String,
        hmac (tokenPayload jobId' fileName' expiresAtMs) ≠
          hmac (tokenPayload jobId fileName expiresAtMs) →
        verifyDownloadToken hmac now jobId' fileName'
          (signDownloadToken hmac jobId fileName expiresAtMs) = false)
    ∧ (∀ t : String, t ≠ "" →
        ((splitDots t.data).length ≠ 3 ∨ (splitDots t.data).headD [] ≠ "v1".data) →
        verifyDownloadToken hmac now jobId fileName t = false)
    ∧ verifyDownloadToken hmac now jobId fileName "" = false := by
  have h1 : (signDownloadToken hmac jobId fileName expiresAtMs).data =
      "v1".data ++ '.' :: ((renderNat expiresAtMs).data ++
        '.' :: (hmac (tokenPayload jobId fileName expiresAtMs)).data) := by
    show ("v1." ++ renderNat expiresAtMs ++ "." ++
        hmac (tokenPayload jobId fileName expiresAtMs)).data = _
    rw [String.data_append, String.data_append, String.data_append]
    simp [List.append_assoc]
  have hrdot : '.' ∉ (renderNat expiresAtMs).data := renderNatChars_no_dot expiresAtMs
  have hsplit : splitDots (signDownloadToken hmac jobId fileName expiresAtMs).data =
      ["v1".data, (renderNat expiresAtMs).data,
        (hmac (tokenPayload jobId fileName expiresAtMs)).data] := by
    rw [h1, splitDots_append _ _ (by decide), splitDots_append _ _ hrdot,
      splitDots_no_dot _ hdot]
  have htk : signDownloadToken hmac jobId fileName expiresAtMs ≠ "" := by
    intro he
    have h2 := congrArg String.data he
    rw [h1] at h2
    simp at h2
  have hparse : parseNatChars? ((renderNat expiresAtMs).data) = some expiresAtMs :=
    parseNatChars?_renderNatChars expiresAtMs
  have heval : ∀ j f : String,
      verifyDownloadToken hmac now j f (signDownloadToken hmac jobId fileName expiresAtMs) =
        (if expiresAtMs = 0 then false
         else if now > expiresAtMs then false
         else decide ((hmac (tokenPayload j f expiresAtMs)).data =
           (hmac (tokenPayload jobId fileName expiresAtMs)).data)) := by
    intro j f
    unfold verifyDownloadToken
    rw [if_neg htk, hsplit]
    simp only [List.length_cons, List.length_nil, List.headD_cons, List.getD_cons_succ,
      List.getD_cons_zero, hparse, if_true]
  refine ⟨?_, ?_, ?_, rfl⟩
  · rw [heval jobId fileName]
    by_cases h0 : expiresAtMs = 0
    · rw [if_pos h0]
      constructor
      · intro hfalse
        exact absurd hfalse (by simp)
      · intro h
        omega
    · rw [if_neg h0]
      by_cases hnow : now > expiresAtMs
      · rw [if_pos hnow]
        constructor
        · intro hfalse
          exact absurd hfalse (by simp)
        · intro h
          omega
      · rw [if_neg hnow]
        simp only [decide_eq_true_eq]
        constructor
        · intro _
          exact ⟨by omega, by omega⟩
        · intro _
          trivial
  · intro jobId' fileName' hne
    rw [heval jobId' fileName']
    by_cases h0 : expiresAtMs = 0
    · rw [if_pos h0]
    · rw [if_neg h0]
      by_cases hnow : now > expiresAtMs
      · rw [if_pos hnow]
      · rw [if_neg hnow]
        simp only [decide_eq_false_iff_not]
        intro hdata
        exact hne (String.ext hdata)
  · intro t ht hmal
    unfold verifyDownloadToken
    rw [if_neg ht]
    rcases hmal with hlen | hhead
    · rw [if_neg hlen]
    · by_cases hlen : (splitDots t.data).length = 3
      · rw [if_pos hlen, if_neg hhead]
      · rw [if_neg hlen]

/-- Witness for `c9_token_verification` at a concrete injected HMAC and a
dot-free payload: a fresh token verifies, and a token checked against a
different job/file pair fails. -/
theorem c9_token_verification_witness :
    verifyDownloadToken (fun s => s) 50 "job1" "song_mp4"
        (signDownloadToken (fun s => s) "job1" "song_mp4" 100) = true
    ∧ verifyDownloadToken (fun s => s) 50 "other" "file"
        (signDownloadToken (fun s => s) "job1" "song_mp4" 100) = false := by
  have h := c9_token_verification (fun s => s) "job1" "song_mp4" 100 50 (by decide)
  exact ⟨h.1.mpr (by decide), h.2.1 "other" "file" (by decide)⟩

/-- C9 counterexample: the payload joins `jobId` and `fileName` with `':'`
without escaping, so distinct pairs can collide: the token signed for
`("a:bx", "c")` verifies for `("a", "bx:c")` even with a collision-free
HMAC — binding to "that exact job+file" fails as stated. -/
theorem c9_counterexample :
    verifyDownloadToken (fun s => s) 50 "a" "bx:c"
        (signDownloadToken (fun s => s) "a:bx" "c" 100) = true
    ∧ ("a" : String) ≠ "a:bx"
    ∧ ("bx:c" : String) ≠ "c" := by
  refine ⟨?_, by decide, by decide⟩
  decide

end YtDl
